import Mathlib

/-!
Shallow embedding of the RTMP-to-HLS relay core (stream registry, bitrate
meter, output bridge, session teardown, serving bridge) together with
theorems checking the natural-language specification against it.

Go strings are modelled as `List Char`; wall-clock instants and durations as
`Int` nanoseconds (Go's `time.Time`/`time.Duration` are integer nanoseconds;
the float64 seconds used transiently in the bitrate computation are modelled
exactly over the rationals, with `Int.tdiv` for Go's truncating `int64`
conversion). External fallible collaborators (the gohlslib muxer) are
modelled by passing their outcome as an explicit parameter and recording the
calls issued to them.
-/

namespace RTMPHLS

/-! ## String helpers (src/server/manager.go: contains / containsAt) -/

/-- Model of `containsAt` (manager.go): Go loop
`for i := 0; i <= len(s)-len(substr); i++ { if s[i:i+len(substr)] == substr { return true } }`.
When `len(substr) > len(s)` the Go loop bound is negative and the loop body
never runs, hence the guard. -/
def containsAt (s sub : List Char) : Bool :=
  if sub.length ≤ s.length then
    (List.range (s.length - sub.length + 1)).any
      (fun i => decide ((s.drop i).take sub.length = sub))
  else false

/-- Model of the hand-written `contains` helper (manager.go):
`len(s) >= len(substr) && (s == substr || len(s) > 0 && containsAt(s, substr))`. -/
def contains (s sub : List Char) : Bool :=
  decide (sub.length ≤ s.length) &&
    (decide (s = sub) || (decide (0 < s.length) && containsAt s sub))

/-! ## Stream-key extraction (src/server/rtmp.go: extractStreamKey) -/

/-- Model of `strings.TrimPrefix(path, "/")`: strip a single leading slash. -/
def trimLeadSlash : List Char → List Char
  | '/' :: cs => cs
  | cs => cs

/-- Model of `strings.Split(s, "/")` (Go semantics for a non-empty one-char
separator: `Split("", "/") = [""]`, `Split("/", "/") = ["", ""]`). -/
def splitSlash : List Char → List (List Char)
  | [] => [[]]
  | c :: cs =>
    if c = '/' then [] :: splitSlash cs
    else
      match splitSlash cs with
      | [] => [[c]]
      | r :: rs => (c :: r) :: rs

/-- Model of `extractStreamKey` (rtmp.go): trim one leading slash, split on
slash; two or more parts yield the last part, exactly one non-empty part
yields that part, otherwise the literal key `default`. -/
def extractStreamKey (path : String) : String :=
  if 2 ≤ (splitSlash (trimLeadSlash path.data)).length then
    ⟨(splitSlash (trimLeadSlash path.data)).getLastD []⟩
  else if (splitSlash (trimLeadSlash path.data)).length = 1 ∧
      (splitSlash (trimLeadSlash path.data)).headD [] ≠ [] then
    ⟨(splitSlash (trimLeadSlash path.data)).headD []⟩
  else "default"

/-- Alternative right-to-left reading of key extraction, used to check
`extractStreamKey` semantically: the suffix after the last slash. -/
def afterLastSlash : List Char → List Char
  | [] => []
  | c :: cs =>
    if '/' ∈ cs then afterLastSlash cs
    else if c = '/' then cs else c :: cs

/-- Specification-level key extraction: on the path with one leading slash
stripped, an empty remainder gives `default`; a remainder containing a slash
gives the suffix after the last slash; otherwise the remainder itself. -/
def extractKeyAlt (path : String) : String :=
  if trimLeadSlash path.data = [] then "default"
  else if '/' ∈ trimLeadSlash path.data then
    ⟨afterLastSlash (trimLeadSlash path.data)⟩
  else ⟨trimLeadSlash path.data⟩

/-! ## Bitrate meter (src/server/manager.go: updateBitrate / GetBitrate) -/

/-- Nanoseconds per second; `elapsed.Seconds() >= 1.0` in Go is exactly
`elapsedNs >= 1e9` (the float64 quotient ns/1e9 of an integer ns is within
half an ulp of the exact rational, which is farther than 1e-9 from 1.0
whenever ns differs from 1e9). -/
def nsPerSecond : Int := 1000000000

/-- Bitrate-accounting state of a stream (fields `bytesTotal`, `lastUpdate`,
`bitrate` of `Stream` in manager.go, guarded by `brateMu`). -/
structure BitrateState where
  bytesTotal : Int
  lastUpdate : Int
  bitrate : Int
deriving DecidableEq

/-- Model of `Stream.updateBitrate` (manager.go): add the byte count to the
running total; when at least one second elapsed since `lastUpdate`, recompute
the rate as total bytes over elapsed seconds (truncated like Go's `int64`
conversion), reset the accumulator and advance `lastUpdate` to now. -/
def updateBitrate (st : BitrateState) (now bytes : Int) : BitrateState :=
  let total := st.bytesTotal + bytes
  let elapsedNs := now - st.lastUpdate
  if nsPerSecond ≤ elapsedNs then
    { bytesTotal := 0, lastUpdate := now,
      bitrate := Int.tdiv (total * nsPerSecond) elapsedNs }
  else
    { st with bytesTotal := total }

/-- Model of `Stream.GetBitrate` (manager.go): return the last computed rate
without recomputing. -/
def GetBitrate (st : BitrateState) : Int :=
  st.bitrate

/-- Fold a sequence of `(now, bytes)` updates through the bitrate meter. -/
def runUpdates (st : BitrateState) : List (Int × Int) → BitrateState
  | [] => st
  | u :: rest => runUpdates (updateBitrate st u.1 u.2) rest

/-! ## Stream and muxer model (src/server/manager.go) -/

/-- Configuration the gohlslib muxer is constructed with in `StartMuxer`
(manager.go): H264 track from the captured SPS/PPS, AAC track from the
captured (or defaulted) sample rate and channel count, five segments of two
seconds. The external muxer itself is opaque; we record its configuration. -/
structure MuxerConfig where
  sps : List Nat
  pps : List Nat
  sampleRate : Int
  channelCount : Int
  segmentCount : Nat
  segmentDurationNs : Int
deriving DecidableEq

/-- One write call issued to the external muxer: anchored (wall-clock)
timestamp, relative presentation timestamp, and the payload parts. -/
structure MuxerWrite where
  anchored : Int
  relative : Int
  payload : List (List Nat)
deriving DecidableEq

/-- Model of the `Stream` struct (manager.go). `sid` models pointer identity
(each `&Stream{...}` allocation gets a fresh id); `muxer` holds the
configuration of the external muxer once one was constructed (`s.Muxer != nil`
iff `muxer ≠ none`). -/
structure Stream where
  key : String
  startTime : Int
  Active : Bool
  sid : Nat
  sps : List Nat
  pps : List Nat
  audioSampleRate : Int
  audioChannelCount : Int
  ntpStart : Int
  muxerReady : Bool
  muxer : Option MuxerConfig
  brate : BitrateState
deriving DecidableEq

/-- The `&Stream{Key:…, StartTime:time.Now(), Active:true, lastUpdate:time.Now()}`
allocation in `GetOrCreateStream` (manager.go); remaining fields are Go zero
values. -/
def newStream (key : String) (now : Int) (sid : Nat) : Stream :=
  { key := key, startTime := now, Active := true, sid := sid,
    sps := [], pps := [], audioSampleRate := 0, audioChannelCount := 0,
    ntpStart := 0, muxerReady := false, muxer := none,
    brate := { bytesTotal := 0, lastUpdate := now, bitrate := 0 } }

/-- Model of `Stream.StartMuxer` (manager.go). `startOk` is the outcome of
the external `Muxer.Start()` call. Returns the updated stream and `true` for
a nil error. On failure the muxer handle is already assigned but `ntpStart`
and `muxerReady` are left untouched. -/
def StartMuxer (s : Stream) (now : Int) (startOk : Bool) : Stream × Bool :=
  if s.muxerReady then (s, true)
  else
    let sampleRate := if s.audioSampleRate = 0 then 48000 else s.audioSampleRate
    let channelCount := if s.audioChannelCount = 0 then 2 else s.audioChannelCount
    let cfg : MuxerConfig :=
      { sps := s.sps, pps := s.pps, sampleRate := sampleRate,
        channelCount := channelCount, segmentCount := 5,
        segmentDurationNs := 2 * nsPerSecond }
    let s1 := { s with muxer := some cfg }
    if startOk then
      ({ s1 with ntpStart := now, muxerReady := true }, true)
    else (s1, false)

/-- Result of one per-unit write: the updated stream, the calls issued to the
external muxer, and the error-log lines emitted. -/
structure WriteResult where
  stream : Stream
  written : List MuxerWrite
  logged : List String
deriving DecidableEq

/-- Go check `contains(errStr, "DTS is not monotonically") || contains(errStr,
"unable to extract DTS")` classifying an H264 write error as benign
(manager.go). -/
def benignH264Error (e : String) : Bool :=
  contains e.data ("DTS is not monotonically").data ||
    contains e.data ("unable to extract DTS").data

/-- Model of `Stream.WriteH264` (manager.go). `now` is the wall clock read
inside `updateBitrate`; `writeErr` is the outcome of the external
`Muxer.WriteH264` call (`none` for a nil error). When the ready flag is unset
or the muxer handle is nil the unit is dropped. Otherwise the bitrate meter
is fed the summed NALU byte lengths and the muxer receives
`(ntpStart + pts, pts, au)`; errors matching the benign DTS patterns are
suppressed, all others are logged. `dts` is received from the callback but
not forwarded, as in the source. -/
def WriteH264 (s : Stream) (now pts dts : Int) (au : List (List Nat))
    (writeErr : Option String) : WriteResult :=
  if ¬ s.muxerReady ∨ s.muxer = none then ⟨s, [], []⟩
  else
    let totalBytes : Int := Int.ofNat (au.map List.length).sum
    let s1 := { s with brate := updateBitrate s.brate now totalBytes }
    let logged := match writeErr with
      | none => []
      | some e =>
        if benignH264Error e then []
        else ["Error writing H264: " ++ e]
    ⟨s1, [⟨s.ntpStart + pts, pts, au⟩], logged⟩

/-- Model of `Stream.WriteAAC` (manager.go). The muxer receives
`(ntpStart + pts, pts, [au])`; every non-nil write error is logged (there is
no benign filtering on the audio path). -/
def WriteAAC (s : Stream) (now pts : Int) (au : List Nat)
    (writeErr : Option String) : WriteResult :=
  if ¬ s.muxerReady ∨ s.muxer = none then ⟨s, [], []⟩
  else
    let s1 := { s with brate := updateBitrate s.brate now (Int.ofNat au.length) }
    let logged := match writeErr with
      | none => []
      | some e => ["Error writing AAC: " ++ e]
    ⟨s1, [⟨s.ntpStart + pts, pts, [au]⟩], logged⟩

/-! ## Manager (src/server/manager.go) -/

/-- Read-only projection returned by `GetAllStreams` (manager.go). -/
structure StreamInfo where
  key : String
  startTime : Int
  bitrate : Int
  Active : Bool
deriving DecidableEq

/-- Model of the `Manager` struct: the `streams` map as an association list
(first match wins, keys kept unique by construction), plus the allocation
counter backing pointer identity. -/
structure Manager where
  streams : List (String × Stream)
  nextId : Nat
deriving DecidableEq

/-- `NewManager` (manager.go): empty registry. -/
def NewManager : Manager :=
  { streams := [], nextId := 0 }

/-- Deleting a key from the map (`delete(m.streams, key)` / map overwrite). -/
def removeKey (key : String) (l : List (String × Stream)) : List (String × Stream) :=
  l.filter (fun p => p.1 != key)

/-- Model of `Manager.GetOrCreateStream` (manager.go): under the exclusive
lock, return the entry if present and active; otherwise allocate a fresh
`Stream` (active, creation time now) and store it under the key. -/
def GetOrCreateStream (m : Manager) (key : String) (now : Int) : Stream × Manager :=
  match List.lookup key m.streams with
  | some s =>
    if s.Active then (s, m)
    else
      let s1 := newStream key now m.nextId
      (s1, { streams := (key, s1) :: removeKey key m.streams, nextId := m.nextId + 1 })
  | none =>
    let s1 := newStream key now m.nextId
    (s1, { streams := (key, s1) :: removeKey key m.streams, nextId := m.nextId + 1 })

/-- Model of `Manager.RemoveStream` (manager.go): if an entry exists it is
deactivated, its muxer closed, and the entry deleted; otherwise a no-op. -/
def RemoveStream (m : Manager) (key : String) : Manager :=
  match List.lookup key m.streams with
  | some _ => { m with streams := removeKey key m.streams }
  | none => m

/-- Model of `Manager.GetStream` (manager.go): plain map lookup (`nil` for a
missing key becomes `none`). -/
def GetStream (m : Manager) (key : String) : Option Stream :=
  List.lookup key m.streams

/-- Model of `Manager.StreamCount` (manager.go): count of entries with the
active flag set. -/
def StreamCount (m : Manager) : Nat :=
  (m.streams.filter (fun p => p.2.Active)).length

/-- Model of `Manager.GetAllStreams` (manager.go): value snapshots of the
active entries. -/
def GetAllStreams (m : Manager) : List StreamInfo :=
  (m.streams.filter (fun p => p.2.Active)).map
    (fun p => { key := p.2.key, startTime := p.2.startTime,
                bitrate := GetBitrate p.2.brate, Active := p.2.Active })

/-! ## Publisher session (src/server/rtmp.go: handlePublisher) -/

/-- Trace of one publisher session after `GetOrCreateStream` succeeded:
final registry state, the stream key used, and how many times
`RemoveStream(key)` ran during teardown. -/
structure SessionTrace where
  final : Manager
  key : String
  removes : Nat
deriving DecidableEq

/-- Model of `RTMPServer.handlePublisher` (rtmp.go) at the level of registry
effects. `url` is `sc.URL` (`none` falls back to the key `default`);
`readerInitOk` is the outcome of `reader.Initialize()`; `hasVideo` whether an
H264 track was discovered; `muxerStartOk` the outcome of `Muxer.Start()`.
Every exit path after the stream was obtained runs the deferred
`RemoveStream(streamKey)` exactly once: reader-initialization failure, muxer
start failure, and read-loop exit (read error, deadline expiry, or server
shutdown) all fall through to the same deferred call. The muxer-start
mutation of the shared `*Stream` is reflected into the registry entry. -/
def handlePublisher (m : Manager) (url : Option String) (now : Int)
    (readerInitOk hasVideo muxerStartOk : Bool) : SessionTrace :=
  let key := match url with
    | some p => extractStreamKey p
    | none => "default"
  let r := GetOrCreateStream m key now
  let stream := r.1
  let m1 := r.2
  if readerInitOk = false then
    { final := RemoveStream m1 key, key := key, removes := 1 }
  else if hasVideo then
    let sm := StartMuxer stream now muxerStartOk
    let m2 : Manager :=
      { streams := (key, sm.1) :: removeKey key m1.streams, nextId := m1.nextId }
    if sm.2 = false then
      { final := RemoveStream m2 key, key := key, removes := 1 }
    else
      { final := RemoveStream m2 key, key := key, removes := 1 }
  else
    { final := RemoveStream m1 key, key := key, removes := 1 }

/-! ## HLS serving bridge (src/server/hls.go: /live/ handler) -/

/-- An HTTP request as seen by the `/live/` handler: method and URL path. -/
structure HTTPRequest where
  method : String
  path : String
deriving DecidableEq

/-- Response of the `/live/` handler: the 200 answered to an OPTIONS
preflight, a 404, or delegation of the unchanged request to the muxer of the
stream with the given identity. -/
inductive HLSResponse where
  | preflightOk : HLSResponse
  | notFound : HLSResponse
  | delegated : Nat → HTTPRequest → HLSResponse
deriving DecidableEq

/-- Model of `strings.TrimPrefix(r.URL.Path, "/live/")`. -/
def trimLiveLead (p : List Char) : List Char :=
  match p with
  | '/' :: 'l' :: 'i' :: 'v' :: 'e' :: '/' :: rest => rest
  | other => other

/-- Model of `strings.SplitN(path, "/", 2)` (Go semantics:
`SplitN("", "/", 2) = [""]`; everything from the first slash on lands in the
second part). -/
def splitN2 : List Char → List (List Char)
  | [] => [[]]
  | c :: cs =>
    if c = '/' then [[], cs]
    else
      match splitN2 cs with
      | [] => [[c]]
      | r :: rs => (c :: r) :: rs

/-- The stream key the `/live/` handler derives from a request path. -/
def liveKey (p : String) : String :=
  ⟨(splitN2 (trimLiveLead p.data)).headD []⟩

/-- Model of the `/live/` handler registered in `createMux` (hls.go): OPTIONS
preflights get 200; otherwise the key is the first segment after the
`/live/` prefix, and the request 404s when the key is absent from the
registry, the stream is inactive, or its muxer handle is nil; otherwise the
unchanged request is delegated to that stream's muxer. -/
def handleLive (m : Manager) (req : HTTPRequest) : HLSResponse :=
  if req.method = "OPTIONS" then .preflightOk
  else if (splitN2 (trimLiveLead req.path.data)).length < 1 then .notFound
  else
    match GetStream m (liveKey req.path) with
    | none => .notFound
    | some s =>
      if s.Active = false ∨ s.muxer = none then .notFound
      else .delegated s.sid req

/-! ## Registry invariants -/

/-- Every entry of the registry map is active. -/
def ActiveInv (m : Manager) : Prop :=
  ∀ p ∈ m.streams, p.2.Active = true

/-- Every entry's allocation id is below the allocation counter (pointer
identities in the map were all handed out in the past). -/
def SidInv (m : Manager) : Prop :=
  ∀ p ∈ m.streams, p.2.sid < m.nextId

/-! ## Concrete fixtures for witnesses -/

/-- A stream whose muxer started successfully: ready flag set, muxer handle
present, anchor at 100 ns. -/
def readyStream : Stream :=
  { newStream "k" 0 0 with
    muxerReady := true, ntpStart := 100,
    muxer := some
      { sps := [], pps := [], sampleRate := 48000, channelCount := 2,
        segmentCount := 5, segmentDurationNs := 2 * nsPerSecond } }

/-- A registry holding the single ready stream under key `k`. -/
def mgr1 : Manager :=
  { streams := [("k", readyStream)], nextId := 1 }

/-! ## Helper lemmas -/

theorem lookup_removeKey_self (key : String) (l : List (String × Stream)) :
    List.lookup key (removeKey key l) = none := by
  induction l with
  | nil => rfl
  | cons p l ih =>
    obtain ⟨k, v⟩ := p
    by_cases h : k = key
    · have hd : removeKey key ((k, v) :: l) = removeKey key l := by
        simp [removeKey, List.filter_cons, h]
      rw [hd]; exact ih
    · have hd : removeKey key ((k, v) :: l) = (k, v) :: removeKey key l := by
        simp [removeKey, List.filter_cons, h]
      rw [hd, List.lookup, beq_false_of_ne (Ne.symm h)]
      exact ih

theorem lookup_cons_self (key : String) (s : Stream) (l : List (String × Stream)) :
    List.lookup key ((key, s) :: l) = some s := by
  simp [List.lookup]

theorem mem_of_lookup_eq_some {key : String} {s : Stream}
    {l : List (String × Stream)} (h : List.lookup key l = some s) :
    (key, s) ∈ l := by
  induction l with
  | nil => simp [List.lookup] at h
  | cons p l ih =>
    rw [List.lookup] at h
    by_cases hk : key = p.1
    · simp [hk] at h
      subst h hk
      exact List.mem_cons_self _ _
    · simp [beq_false_of_ne hk] at h
      exact List.mem_cons_of_mem _ (ih h)

theorem getStream_removeStream_self (m : Manager) (key : String) :
    GetStream (RemoveStream m key) key = none := by
  unfold GetStream RemoveStream
  cases h : List.lookup key m.streams with
  | none => simpa using h
  | some s => simpa using lookup_removeKey_self key m.streams

/-- Single below-threshold update: the accumulator grows, everything else is
untouched. -/
theorem updateBitrate_below (st : BitrateState) (now bytes : Int)
    (h : now - st.lastUpdate < nsPerSecond) :
    updateBitrate st now bytes = { st with bytesTotal := st.bytesTotal + bytes } := by
  unfold updateBitrate
  rw [if_neg (by omega)]

/-- A run of updates all strictly inside the one-second window only grows the
accumulator. -/
theorem runUpdates_below (ups : List (Int × Int)) :
    ∀ st : BitrateState, (∀ u ∈ ups, u.1 - st.lastUpdate < nsPerSecond) →
      runUpdates st ups =
        { st with bytesTotal := st.bytesTotal + (ups.map Prod.snd).sum } := by
  induction ups with
  | nil => intro st _; simp [runUpdates]
  | cons u rest ih =>
    intro st h
    rw [runUpdates, updateBitrate_below st u.1 u.2 (h u (by simp))]
    rw [ih { st with bytesTotal := st.bytesTotal + u.2 }
      (fun v hv => h v (List.mem_cons_of_mem _ hv))]
    simp [add_assoc]

theorem removeStream_nextId (m : Manager) (key : String) :
    (RemoveStream m key).nextId = m.nextId := by
  unfold RemoveStream
  cases List.lookup key m.streams <;> rfl

/-- `GetOrCreateStream` on a present, active entry returns it and leaves the
registry untouched. -/
theorem getOrCreate_of_active {m : Manager} {key : String} {s : Stream}
    (hs : GetStream m key = some s) (ha : s.Active = true) (now : Int) :
    GetOrCreateStream m key now = (s, m) := by
  unfold GetStream at hs
  unfold GetOrCreateStream
  rw [hs]
  simp [ha]

/-- `GetOrCreateStream` with no active entry for the key allocates a fresh
active stream and stores it. -/
theorem getOrCreate_fresh {m : Manager} {key : String}
    (h : ∀ s, GetStream m key = some s → s.Active = false) (now : Int) :
    GetOrCreateStream m key now =
      (newStream key now m.nextId,
        { streams := (key, newStream key now m.nextId) :: removeKey key m.streams,
          nextId := m.nextId + 1 }) := by
  unfold GetOrCreateStream
  cases hl : List.lookup key m.streams with
  | none => rfl
  | some s =>
    have hact := h s hl
    simp [hact]

/-! ## Claim theorems -/

/-- Claim C4: `updateBitrate(n)` adds `n` to the running byte total; the rate
is recomputed as total bytes over elapsed seconds, the accumulator reset and
the timestamp advanced exactly when at least one second elapsed since the
last update; `GetBitrate` returns the stored rate without recomputing, so a
run of updates staying under one second of cumulative elapsed time leaves it
unchanged. -/
theorem bitrate_meter_spec (st : BitrateState) (now bytes : Int)
    (ups : List (Int × Int)) :
    (now - st.lastUpdate < nsPerSecond →
      updateBitrate st now bytes = { st with bytesTotal := st.bytesTotal + bytes } ∧
      GetBitrate (updateBitrate st now bytes) = GetBitrate st) ∧
    (nsPerSecond ≤ now - st.lastUpdate →
      updateBitrate st now bytes =
        { bytesTotal := 0, lastUpdate := now,
          bitrate := Int.tdiv ((st.bytesTotal + bytes) * nsPerSecond)
            (now - st.lastUpdate) }) ∧
    GetBitrate st = st.bitrate ∧
    ((∀ u ∈ ups, u.1 - st.lastUpdate < nsPerSecond) →
      GetBitrate (runUpdates st ups) = GetBitrate st ∧
      (runUpdates st ups).bytesTotal = st.bytesTotal + (ups.map Prod.snd).sum) := by
  refine ⟨fun h => ⟨updateBitrate_below st now bytes h, ?_⟩, fun h => ?_, rfl, fun h => ?_⟩
  · rw [updateBitrate_below st now bytes h]
    rfl
  · unfold updateBitrate
    rw [if_pos (by omega)]
  · rw [runUpdates_below ups st h]
    exact ⟨rfl, rfl⟩

/-- Witness for C4: four 500-byte updates inside the window keep the rate at
7; a 2-second update recomputes 2000 bytes / 2 s = 1000 bytes/s and resets. -/
theorem bitrate_meter_spec_witness :
    GetBitrate (runUpdates { bytesTotal := 0, lastUpdate := 0, bitrate := 7 }
      [(200000000, 500), (400000000, 500), (600000000, 500), (800000000, 500)]) = 7 ∧
    updateBitrate { bytesTotal := 1500, lastUpdate := 0, bitrate := 7 } 2000000000 500 =
      { bytesTotal := 0, lastUpdate := 2000000000, bitrate := 1000 } := by
  constructor
  · exact ((bitrate_meter_spec { bytesTotal := 0, lastUpdate := 0, bitrate := 7 } 0 0
      [(200000000, 500), (400000000, 500), (600000000, 500), (800000000, 500)]).2.2.2
      (by decide)).1
  · rw [(bitrate_meter_spec { bytesTotal := 1500, lastUpdate := 0, bitrate := 7 }
      2000000000 500 []).2.1 (by decide)]
    decide

/-- Claim C5: a per-unit write with the ready flag unset or the muxer handle
absent returns without error, issues no muxer write, emits no log, and leaves
the stream (bitrate accounting included) unchanged. -/
theorem write_unready_drops (s : Stream) (now pts dts : Int)
    (au : List (List Nat)) (au2 : List Nat) (e : Option String)
    (h : s.muxerReady = false ∨ s.muxer = none) :
    WriteH264 s now pts dts au e = ⟨s, [], []⟩ ∧
    WriteAAC s now pts au2 e = ⟨s, [], []⟩ := by
  have hc : ¬ s.muxerReady ∨ s.muxer = none := by
    rcases h with h | h
    · exact Or.inl (by simp [h])
    · exact Or.inr h
  constructor
  · unfold WriteH264; rw [if_pos hc]
  · unfold WriteAAC; rw [if_pos hc]

/-- Witness for C5: a freshly created stream (not ready) drops both kinds of
units. -/
theorem write_unready_drops_witness :
    WriteH264 (newStream "k" 0 0) 3 4 4 [[1, 2]] none = ⟨newStream "k" 0 0, [], []⟩ ∧
    WriteAAC (newStream "k" 0 0) 3 4 [1] none = ⟨newStream "k" 0 0, [], []⟩ :=
  write_unready_drops (newStream "k" 0 0) 3 4 4 [[1, 2]] [1] none (Or.inl (by decide))

/-- Claim C6: with the ready flag set and a muxer present, a write feeds the
bitrate meter exactly the summed byte lengths of the unit's payload parts and
hands the muxer the anchored timestamp `ntpStart + pts` together with the
unchanged relative timestamp and payload; the anchor is the wall clock
recorded at successful start, and the ready flag is set only by a fully
successful start. -/
theorem write_ready_spec (s s2 : Stream) (now pts dts startNow : Int)
    (au : List (List Nat)) (au2 : List Nat) (e : Option String)
    (cfg : MuxerConfig) (hr : s.muxerReady = true) (hm : s.muxer = some cfg)
    (h2 : s2.muxerReady = false) :
    ((WriteH264 s now pts dts au e).stream =
        { s with brate := updateBitrate s.brate now (Int.ofNat (au.map List.length).sum) } ∧
      (WriteH264 s now pts dts au e).written = [⟨s.ntpStart + pts, pts, au⟩]) ∧
    ((WriteAAC s now pts au2 e).stream =
        { s with brate := updateBitrate s.brate now (Int.ofNat au2.length) } ∧
      (WriteAAC s now pts au2 e).written = [⟨s.ntpStart + pts, pts, [au2]⟩]) ∧
    ((StartMuxer s2 startNow true).1.muxerReady = true ∧
      (StartMuxer s2 startNow true).1.ntpStart = startNow ∧
      (StartMuxer s2 startNow true).2 = true) ∧
    ((StartMuxer s2 startNow false).1.muxerReady = false ∧
      (StartMuxer s2 startNow false).2 = false) := by
  have hc : ¬ (¬ s.muxerReady ∨ s.muxer = none) := by
    simp [hr, hm]
  refine ⟨?_, ?_, ?_, ?_⟩
  · unfold WriteH264
    rw [if_neg hc]
    exact ⟨rfl, rfl⟩
  · unfold WriteAAC
    rw [if_neg hc]
    exact ⟨rfl, rfl⟩
  · unfold StartMuxer
    rw [if_neg (by simp [h2])]
    simp
  · unfold StartMuxer
    rw [if_neg (by simp [h2])]
    simp [h2]

/-- Witness for C6: a ready stream anchored at 100 forwards a unit with
`pts = 20` at anchored time 120; a successful start at 77 anchors at 77. -/
theorem write_ready_spec_witness :
    (WriteH264 readyStream 10 20 20 [[1, 2, 3]] none).written =
      [⟨120, 20, [[1, 2, 3]]⟩] ∧
    (StartMuxer (newStream "k" 0 0) 77 true).1.ntpStart = 77 := by
  have h := write_ready_spec readyStream (newStream "k" 0 0) 10 20 20 77
    [[1, 2, 3]] [] none
    { sps := [], pps := [], sampleRate := 48000, channelCount := 2,
      segmentCount := 5, segmentDurationNs := 2 * nsPerSecond }
    rfl rfl rfl
  exact ⟨h.1.2, h.2.2.1.2.1⟩

/-- Counterexample for C7: the code's own benign classifier accepts the DTS
monotonicity message, yet on the audio path that very failure is logged, not
suppressed — the claimed video-or-audio-wide suppression of benign failures
does not hold for audio. -/
theorem benign_audio_error_logged_cex :
    benignH264Error "DTS is not monotonically increasing" = true ∧
    (WriteAAC readyStream 0 0 [1]
        (some "DTS is not monotonically increasing")).logged =
      ["Error writing AAC: DTS is not monotonically increasing"] := by
  decide

/-- Claim C7 as amended: every per-unit write failure is caught locally and
the write still returns normally with its effects performed; on the video
path failures matching the benign DTS patterns are suppressed from logs and
all others are logged, while on the audio path every failure is logged. -/
theorem write_failure_classification (s : Stream) (now pts dts : Int)
    (au : List (List Nat)) (au2 : List Nat) (e : String) (cfg : MuxerConfig)
    (hr : s.muxerReady = true) (hm : s.muxer = some cfg) :
    (benignH264Error e = true →
      (WriteH264 s now pts dts au (some e)).logged = []) ∧
    (benignH264Error e = false →
      (WriteH264 s now pts dts au (some e)).logged = ["Error writing H264: " ++ e]) ∧
    (WriteAAC s now pts au2 (some e)).logged = ["Error writing AAC: " ++ e] ∧
    (WriteH264 s now pts dts au (some e)).written = [⟨s.ntpStart + pts, pts, au⟩] ∧
    (WriteAAC s now pts au2 (some e)).written = [⟨s.ntpStart + pts, pts, [au2]⟩] := by
  have hc : ¬ (¬ s.muxerReady ∨ s.muxer = none) := by
    simp [hr, hm]
  unfold WriteH264 WriteAAC
  rw [if_neg hc, if_neg hc]
  refine ⟨fun hb => ?_, fun hb => ?_, rfl, rfl, rfl⟩
  · simp [hb]
  · simp [hb]

/-- Witness for C7 (amended): a non-benign video write error is logged. -/
theorem write_failure_classification_witness :
    (WriteH264 readyStream 0 0 0 [[1]] (some "boom")).logged =
      ["Error writing H264: boom"] := by
  have h := write_failure_classification readyStream 0 0 0 [[1]] [] "boom"
    { sps := [], pps := [], sampleRate := 48000, channelCount := 2,
      segmentCount := 5, segmentDurationNs := 2 * nsPerSecond }
    rfl rfl
  exact h.2.1 (by decide)

/-- Claim C2: once a publisher session has obtained its stream, every exit
path of the session runs `RemoveStream` on its key exactly once, and the
registry afterwards has no entry for that key. -/
theorem session_teardown_spec (m : Manager) (url : Option String) (now : Int)
    (readerInitOk hasVideo muxerStartOk : Bool) :
    (handlePublisher m url now readerInitOk hasVideo muxerStartOk).removes = 1 ∧
    GetStream (handlePublisher m url now readerInitOk hasVideo muxerStartOk).final
      (handlePublisher m url now readerInitOk hasVideo muxerStartOk).key = none := by
  unfold handlePublisher
  cases readerInitOk <;> cases hasVideo <;>
    simp [getStream_removeStream_self]

/-- Claim C1: `GetOrCreateStream` returns the existing entry when one is
present and active, otherwise allocates a fresh stream (active, creation time
now) and inserts it; two calls while the first result is active return the
identical entry, and after `RemoveStream` a subsequent call returns a
distinct, freshly created entry. -/
theorem getOrCreate_spec (m : Manager) (key : String) (now now2 now3 : Int)
    (hsid : SidInv m) :
    (∀ s, GetStream m key = some s → s.Active = true →
      GetOrCreateStream m key now = (s, m)) ∧
    ((∀ s, GetStream m key = some s → s.Active = false) →
      GetOrCreateStream m key now =
        (newStream key now m.nextId,
          { streams := (key, newStream key now m.nextId) :: removeKey key m.streams,
            nextId := m.nextId + 1 })) ∧
    GetStream (GetOrCreateStream m key now).2 key =
      some (GetOrCreateStream m key now).1 ∧
    (GetOrCreateStream m key now).1.Active = true ∧
    (GetOrCreateStream (GetOrCreateStream m key now).2 key now2).1 =
      (GetOrCreateStream m key now).1 ∧
    (GetOrCreateStream (RemoveStream (GetOrCreateStream m key now).2 key) key now3).1 =
      newStream key now3 (GetOrCreateStream m key now).2.nextId ∧
    (GetOrCreateStream (RemoveStream (GetOrCreateStream m key now).2 key) key now3).1.sid ≠
      (GetOrCreateStream m key now).1.sid := by
  have hn : ∀ (mm : Manager) (t : Stream),
      GetStream (RemoveStream mm key) key = some t → t.Active = false := by
    intro mm t ht
    rw [getStream_removeStream_self] at ht
    cases ht
  refine ⟨fun s hs ha => getOrCreate_of_active hs ha now,
    fun h => getOrCreate_fresh h now, ?_⟩
  by_cases hex : ∃ s, GetStream m key = some s ∧ s.Active = true
  · obtain ⟨s, hs, ha⟩ := hex
    have h1 := getOrCreate_of_active hs ha now
    rw [h1]
    refine ⟨hs, ha, ?_, ?_, ?_⟩
    · rw [getOrCreate_of_active hs ha now2]
    · rw [getOrCreate_fresh (hn m) now3, removeStream_nextId]
    · rw [getOrCreate_fresh (hn m) now3, removeStream_nextId]
      have hlt : s.sid < m.nextId := hsid (key, s) (mem_of_lookup_eq_some hs)
      simp only [newStream]
      omega
  · push_neg at hex
    have h : ∀ s, GetStream m key = some s → s.Active = false := by
      intro s hs
      have := hex s hs
      simpa using this
    have h1 := getOrCreate_fresh h now
    rw [h1]
    refine ⟨lookup_cons_self key _ _, rfl, ?_, ?_, ?_⟩
    · rw [getOrCreate_of_active (m :=
        { streams := (key, newStream key now m.nextId) :: removeKey key m.streams,
          nextId := m.nextId + 1 })
        (lookup_cons_self key _ _) rfl now2]
    · rw [getOrCreate_fresh (hn _) now3, removeStream_nextId]
    · rw [getOrCreate_fresh (hn _) now3, removeStream_nextId]
      simp [newStream]

/-- Witness for C1: on the empty registry, the entry created after a
create–remove cycle is distinct from the first one. -/
theorem getOrCreate_spec_witness :
    (GetOrCreateStream (RemoveStream (GetOrCreateStream NewManager "k" 1).2 "k")
        "k" 3).1.sid ≠
      (GetOrCreateStream NewManager "k" 1).1.sid := by
  have h := getOrCreate_spec NewManager "k" 1 2 3 (by unfold SidInv; decide)
  exact h.2.2.2.2.2.2

/-- Claim C9: every registry operation preserves the invariant that all map
entries are active; under it, `StreamCount` counts every entry, `GetStream`
returns absent or an active stream, and the active filters of
`GetAllStreams`/`StreamCount` exclude nothing. -/
theorem manager_active_invariant (m : Manager) (key : String) (now : Int)
    (h : ActiveInv m) :
    ActiveInv NewManager ∧
    ActiveInv (GetOrCreateStream m key now).2 ∧
    ActiveInv (RemoveStream m key) ∧
    StreamCount m = m.streams.length ∧
    (∀ k s, GetStream m k = some s → s.Active = true) ∧
    GetAllStreams m = m.streams.map (fun p =>
      { key := p.2.key, startTime := p.2.startTime,
        bitrate := GetBitrate p.2.brate, Active := p.2.Active }) := by
  have hf : m.streams.filter (fun p => p.2.Active) = m.streams :=
    List.filter_eq_self.mpr (fun p hp => by simpa using h p hp)
  have hins : ∀ n n2 : Nat, ActiveInv
      { streams := (key, newStream key now n) :: removeKey key m.streams,
        nextId := n2 } := by
    intro n n2 p hp
    rcases List.mem_cons.mp hp with h1 | h1
    · rw [h1]; rfl
    · exact h p (List.mem_of_mem_filter h1)
  refine ⟨fun p hp => absurd hp (List.not_mem_nil p), ?_, ?_, ?_, ?_, ?_⟩
  · unfold GetOrCreateStream
    cases hl : List.lookup key m.streams with
    | none => exact hins _ _
    | some s =>
      by_cases ha : s.Active = true
      · simpa [ha] using h
      · simp only [Bool.not_eq_true] at ha
        simpa [ha] using hins _ _
  · unfold RemoveStream
    cases List.lookup key m.streams with
    | none => exact h
    | some s => exact fun p hp => h p (List.mem_of_mem_filter hp)
  · unfold StreamCount
    rw [hf]
  · exact fun k s hs => h (k, s) (mem_of_lookup_eq_some hs)
  · unfold GetAllStreams
    rw [hf]

/-- Witness for C9: on the singleton registry of one active stream, the
count equals the raw map size. -/
theorem manager_active_invariant_witness :
    StreamCount mgr1 = mgr1.streams.length := by
  have h := manager_active_invariant mgr1 "k" 0 (by unfold ActiveInv; decide)
  exact h.2.2.2.1

theorem splitN2_length_pos (l : List Char) : 0 < (splitN2 l).length := by
  cases l with
  | nil => simp [splitN2]
  | cons c cs =>
    unfold splitN2
    by_cases h : c = '/'
    · simp [h]
    · cases hs : splitN2 cs <;> simp [h, hs]

/-- Counterexample for C8: an OPTIONS preflight for a key absent from the
registry is answered 200, not 404, so the claimed not-found iff condition
fails for OPTIONS requests. -/
theorem live_options_cex :
    GetStream NewManager "k" = none ∧
    handleLive NewManager { method := "OPTIONS", path := "/live/k/index.m3u8" } ≠
      HLSResponse.notFound := by
  decide

/-- Claim C8 as amended: for every non-OPTIONS request to `/live/{key}/...`,
the handler responds not-found exactly when the key is absent, the stream is
inactive, or its muxer handle is absent; otherwise it delegates the
unchanged request to that stream's muxer. OPTIONS preflights are answered
200 regardless. -/
theorem handleLive_spec (m : Manager) (req : HTTPRequest)
    (hm : req.method ≠ "OPTIONS") :
    (handleLive m req = .notFound ↔
      GetStream m (liveKey req.path) = none ∨
        ∃ s, GetStream m (liveKey req.path) = some s ∧
          (s.Active = false ∨ s.muxer = none)) ∧
    (∀ s, GetStream m (liveKey req.path) = some s → s.Active = true →
      s.muxer ≠ none → handleLive m req = .delegated s.sid req) := by
  unfold handleLive
  rw [if_neg hm, if_neg (Nat.not_lt.mpr (splitN2_length_pos _))]
  cases hg : GetStream m (liveKey req.path) with
  | none => simp [hg]
  | some s =>
    dsimp only
    by_cases hc : s.Active = false ∨ s.muxer = none
    · rw [if_pos hc]
      constructor
      · simp only [true_iff]
        exact Or.inr ⟨s, rfl, hc⟩
      · intro t ht ha hmux
        obtain rfl : s = t := by injection ht
        rcases hc with hc | hc
        · rw [ha] at hc; cases hc
        · exact absurd hc hmux
    · rw [if_neg hc]
      push_neg at hc
      constructor
      · constructor
        · intro h; cases h
        · rintro (h | ⟨t, ht, hd⟩)
          · cases h
          · obtain rfl : s = t := by injection ht
            rcases hd with hd | hd
            · exact absurd hd hc.1
            · exact absurd hd hc.2
      · intro t ht _ _
        obtain rfl : s = t := by injection ht
        rfl

/-- Witness for C8 (amended): a GET for the ready stream `k` is delegated
unchanged to that stream's muxer. -/
theorem handleLive_spec_witness :
    handleLive mgr1 { method := "GET", path := "/live/k/index.m3u8" } =
      HLSResponse.delegated 0 { method := "GET", path := "/live/k/index.m3u8" } := by
  have h := handleLive_spec mgr1 { method := "GET", path := "/live/k/index.m3u8" }
    (by decide)
  exact h.2 readyStream (by decide) rfl (by decide)

theorem splitSlash_ne_nil (l : List Char) : splitSlash l ≠ [] := by
  cases l with
  | nil => simp [splitSlash]
  | cons c cs =>
    unfold splitSlash
    by_cases h : c = '/'
    · simp [h]
    · cases hs : splitSlash cs <;> simp [h, hs]

theorem splitSlash_of_not_mem {l : List Char} (h : '/' ∉ l) :
    splitSlash l = [l] := by
  induction l with
  | nil => rfl
  | cons c cs ih =>
    have hc : ¬ c = '/' := fun he => h (he ▸ List.mem_cons_self c cs)
    have hcs : '/' ∉ cs := fun hm => h (List.mem_cons_of_mem c hm)
    unfold splitSlash
    rw [if_neg hc, ih hcs]

theorem two_le_splitSlash_length {l : List Char} (h : '/' ∈ l) :
    2 ≤ (splitSlash l).length := by
  induction l with
  | nil => cases h
  | cons c cs ih =>
    unfold splitSlash
    by_cases hc : c = '/'
    · rw [if_pos hc]
      cases hs : splitSlash cs with
      | nil => exact absurd hs (splitSlash_ne_nil cs)
      | cons r rs => simp
    · rw [if_neg hc]
      have hcs : '/' ∈ cs := by
        rcases List.mem_cons.mp h with h1 | h1
        · exact absurd h1.symm hc
        · exact h1
      have h2 := ih hcs
      cases hs : splitSlash cs with
      | nil => exact absurd hs (splitSlash_ne_nil cs)
      | cons r rs =>
        rw [hs] at h2
        simpa using h2

theorem splitSlash_getLastD {l : List Char} (h : '/' ∈ l) :
    (splitSlash l).getLastD [] = afterLastSlash l := by
  induction l with
  | nil => cases h
  | cons c cs ih =>
    unfold splitSlash afterLastSlash
    by_cases hm : '/' ∈ cs
    · rw [if_pos hm]
      by_cases hc : c = '/'
      · rw [if_pos hc, ← ih hm]
        cases hs : splitSlash cs with
        | nil => exact absurd hs (splitSlash_ne_nil cs)
        | cons r rs => simp [List.getLastD_cons]
      · rw [if_neg hc, ← ih hm]
        cases hs : splitSlash cs with
        | nil => exact absurd hs (splitSlash_ne_nil cs)
        | cons r rs =>
          have h2 := two_le_splitSlash_length hm
          rw [hs] at h2
          cases rs with
          | nil => simp at h2
          | cons a as => simp [List.getLastD_cons]
    · have hc : c = '/' := by
        rcases List.mem_cons.mp h with h1 | h1
        · exact h1.symm
        · exact absurd h1 hm
      rw [if_neg hm, if_pos hc, if_pos hc, splitSlash_of_not_mem hm]
      simp [List.getLastD_cons]

/-- Claim C3: `extractStreamKey` is a pure total function agreeing with the
last-segment reading (strip one leading slash; empty remainder gives
`default`; a remainder with a slash gives the suffix after the last slash;
otherwise the remainder itself), with the four concrete values of the spec. -/
theorem extractStreamKey_spec (p : String) :
    extractStreamKey p = extractKeyAlt p ∧
    extractStreamKey "/live/abc" = "abc" ∧
    extractStreamKey "/abc" = "abc" ∧
    extractStreamKey "/" = "default" ∧
    extractStreamKey "" = "default" := by
  refine ⟨?_, by decide, by decide, by decide, by decide⟩
  unfold extractStreamKey extractKeyAlt
  by_cases hm : '/' ∈ trimLeadSlash p.data
  · have hq : ¬ trimLeadSlash p.data = [] := by
      intro he; rw [he] at hm; cases hm
    rw [if_pos (two_le_splitSlash_length hm), if_neg hq, if_pos hm,
      splitSlash_getLastD hm]
  · by_cases hq : trimLeadSlash p.data = []
    · rw [hq, if_pos rfl]
      norm_num [splitSlash]
    · rw [splitSlash_of_not_mem hm, if_neg hq, if_neg hm,
        if_neg (by norm_num), if_pos (by simpa using hq)]
      rfl

theorem containsAt_eq_true_iff (s sub : List Char) :
    containsAt s sub = true ↔
      ∃ i, i + sub.length ≤ s.length ∧ (s.drop i).take sub.length = sub := by
  unfold containsAt
  by_cases h : sub.length ≤ s.length
  · rw [if_pos h, List.any_eq_true]
    constructor
    · rintro ⟨i, hi, hp⟩
      rw [List.mem_range] at hi
      rw [decide_eq_true_eq] at hp
      exact ⟨i, by omega, hp⟩
    · rintro ⟨i, hb, hp⟩
      exact ⟨i, List.mem_range.mpr (by omega), decide_eq_true_eq.mpr hp⟩
  · rw [if_neg h]
    constructor
    · intro hf; cases hf
    · rintro ⟨i, hb, _⟩
      exact absurd (by omega : sub.length ≤ s.length) h

theorem exists_drop_take_iff (s sub : List Char) :
    (∃ i, i + sub.length ≤ s.length ∧ (s.drop i).take sub.length = sub) ↔
      ∃ t u, t ++ sub ++ u = s := by
  constructor
  · rintro ⟨i, _, hp⟩
    refine ⟨s.take i, (s.drop i).drop sub.length, ?_⟩
    have h1 : s.take i ++ sub ++ (s.drop i).drop sub.length =
        s.take i ++ ((s.drop i).take sub.length ++ (s.drop i).drop sub.length) := by
      rw [hp, List.append_assoc]
    rw [h1, List.take_append_drop, List.take_append_drop]
  · rintro ⟨t, u, hs⟩
    refine ⟨t.length, ?_, ?_⟩
    · rw [← hs]
      simp only [List.length_append]
      omega
    · rw [← hs, List.append_assoc, List.drop_left, List.take_left]

/-- Claim C10: the hand-written `contains` helper decides exactly the
contiguous-substring relation (with the empty string a substring of every
string), matching `strings.Contains`. -/
theorem contains_iff_substring (s sub : List Char) :
    contains s sub = true ↔ ∃ t u, t ++ sub ++ u = s := by
  unfold contains
  rw [Bool.and_eq_true, Bool.or_eq_true, Bool.and_eq_true]
  simp only [decide_eq_true_eq]
  constructor
  · rintro ⟨hlen, heq | ⟨hpos, hat⟩⟩
    · exact ⟨[], [], by simp [heq]⟩
    · exact (exists_drop_take_iff s sub).mp ((containsAt_eq_true_iff s sub).mp hat)
  · rintro ⟨t, u, hs⟩
    have hlen : sub.length ≤ s.length := by
      rw [← hs]
      simp only [List.length_append]
      omega
    refine ⟨hlen, ?_⟩
    by_cases heq : s = sub
    · exact Or.inl heq
    · refine Or.inr ⟨?_, (containsAt_eq_true_iff s sub).mpr
        ((exists_drop_take_iff s sub).mpr ⟨t, u, hs⟩)⟩
      cases s with
      | nil =>
        simp only [List.append_eq_nil] at hs
        exact absurd hs.1.2.symm heq
      | cons c cs => simp

/-- Witness for C10: `bc` occurs inside `abcd` and the helper agrees. -/
theorem contains_iff_substring_witness :
    ∃ t u, t ++ ("bc").data ++ u = ("abcd").data :=
  (contains_iff_substring ("abcd").data ("bc").data).mp (by decide)

end RTMPHLS
